import Mathlib

/-!
Verification of the diffwatch change-detection core against its design
specification.  The Go sources are shallowly embedded: byte slices become
`List Nat`, maps become functions into `Option`, and the floating-point
ratio test of the binary heuristic is modelled exactly in natural-number
arithmetic (see the comment at `isBinary`).
-/

namespace Diffwatch

/-! ## Snapshot data model (internal/state) -/

/-- `state.FileState`: path, raw content bytes, and an existence flag. -/
structure FileState where
  path : String
  content : List Nat
  exists_ : Bool
deriving DecidableEq

/-! ## Binary-content heuristic (internal/diff, `isBinary`) -/

/-- The per-byte condition counted by the Go loop in `isBinary`:
`b < 32 && b != 9 && b != 10 && b != 13` or `b > 126 && b < 128`. -/
def isNonPrintable (b : Nat) : Bool :=
  (decide (b < 32) && !(b == 9) && !(b == 10) && !(b == 13)) ||
    (decide (126 < b) && decide (b < 128))

/-- `isBinary` from the diff engine.  The Go comparison
`float64(nonPrintable)/float64(len(sample)) > 0.30` is modelled exactly by
`10 * nonPrintable > 3 * len(sample)`: every quotient here is a rational with
denominator at most 8192, so it is either exactly 3/10 (whose IEEE-754
quotient equals the double nearest to the literal `0.30`, making the strict
comparison false on both models) or at distance greater than 1e-8 from 3/10,
far beyond the 1e-16-scale rounding error of one double division. -/
def isBinary (content : List Nat) : Bool :=
  if content.length = 0 then false
  else
    let checkSize := if content.length < 8192 then content.length else 8192
    let sample := content.take checkSize
    if sample.any (fun b => b == 0) then true
    else decide (10 * (sample.filter isNonPrintable).length > 3 * sample.length)

/-- The spec's reference per-byte condition: below 0x20 and not tab/LF/CR, or
in the range 127 through 255. -/
def isNonPrintableSpecRef (b : Nat) : Bool :=
  (decide (b < 32) && !(b == 9) && !(b == 10) && !(b == 13)) ||
    (decide (127 ≤ b) && decide (b ≤ 255))

/-- The spec's reference binary classifier, written from the spec's words:
sample the first `min(len, 8192)` bytes, classify binary on any 0x00, else
binary exactly when the non-printable count exceeds 30% of the sample. -/
def isBinarySpecRef (content : List Nat) : Bool :=
  let sample := content.take (min content.length 8192)
  if sample.any (fun b => b == 0) then true
  else decide (10 * (sample.filter isNonPrintableSpecRef).length > 3 * sample.length)

/-- The amended per-byte condition: high bytes count only when exactly 127
(bytes 128 through 255 are not counted by the code). -/
def isNonPrintableAmended (b : Nat) : Bool :=
  (decide (b < 32) && !(b == 9) && !(b == 10) && !(b == 13)) || (b == 127)

/-- The amended reference classifier: as `isBinarySpecRef` but with the
high-byte range restricted to exactly 127. -/
def isBinarySpecAmended (content : List Nat) : Bool :=
  let sample := content.take (min content.length 8192)
  if sample.any (fun b => b == 0) then true
  else decide (10 * (sample.filter isNonPrintableAmended).length > 3 * sample.length)

theorem checkSize_eq_min (n : Nat) : (if n < 8192 then n else 8192) = min n 8192 := by
  rcases Nat.lt_or_ge n 8192 with h | h
  · simp [h, Nat.min_eq_left (Nat.le_of_lt h)]
  · simp [Nat.not_lt.mpr h, Nat.min_eq_right h]

theorem isNonPrintable_eq_amended (b : Nat) :
    isNonPrintable b = isNonPrintableAmended b := by
  unfold isNonPrintable isNonPrintableAmended
  have h : (decide (126 < b) && decide (b < 128)) = (b == 127) := by
    rw [Bool.eq_iff_iff]
    simp only [Bool.and_eq_true, decide_eq_true_eq, beq_iff_eq]
    omega
  rw [h]

/-- C1, counterexample: on the single byte 0xC8 = 200 the code's classifier
returns text (the high-byte clause `b > 126 && b < 128` does not count 200)
while the spec's reference definition, which counts every byte in 127..255,
returns binary; so the classifier does not equal the reference definition. -/
theorem isBinary_ne_specRef_at_byte200 : isBinary [200] ≠ isBinarySpecRef [200] := by
  decide

/-- C1, amended: the binary classifier equals the reference definition once
the reference's high-byte clause is restricted from the range 127..255 to the
single value 127: over the first `min(len, 8192)` bytes it returns binary if
any sampled byte is 0x00, and otherwise exactly when the count of sampled
bytes that are below 0x20 and not tab/LF/CR, or equal to 127, exceeds 30% of
the sample. -/
theorem isBinary_eq_amended_reference (content : List Nat) :
    isBinary content = isBinarySpecAmended content := by
  rcases content with _ | ⟨b, rest⟩
  · rfl
  · simp only [isBinary, isBinarySpecAmended, checkSize_eq_min,
      List.filter_congr (fun a _ => isNonPrintable_eq_amended a)]
    simp

/-! ## Diff engine data model (internal/diff) -/

/-- `diff.LineType`. -/
inductive LineType where
  | unchanged
  | added
  | deleted
  | modified
deriving DecidableEq

/-- `diff.DiffLine`; Go zero values (0, "") stand for "not applicable". -/
structure DiffLine where
  type : LineType
  oldLineNum : Nat
  newLineNum : Nat
  content : List Nat
  oldContent : List Nat
deriving DecidableEq

/-- `diff.Result`. -/
structure Result where
  path : String
  oldState : FileState
  newState : FileState
  unified : String
  lines : List DiffLine
  hasDiff : Bool
  isNew : Bool
  isDeleted : Bool
  isBinary : Bool
deriving DecidableEq

/-- A difflib opcode: a tag byte `'e'`/`'d'`/`'i'`/`'r'` and the spans
`[i1, i2)` of the old and `[j1, j2)` of the new line sequence. -/
structure Opcode where
  tag : Char
  i1 : Nat
  i2 : Nat
  j1 : Nat
  j2 : Nat
deriving DecidableEq

/-- Go `strings.Split(string(content), "\n")`: split the raw bytes at each
LF byte; n separators yield n+1 chunks, the empty content yields `[[]]`. -/
def splitLines (content : List Nat) : List (List Nat) :=
  content.splitOn 10

/-- Modelled from the spec: the sequence matcher of the external difflib
dependency (not part of src/) is "a longest-common-subsequence–based
matcher".  `lcsFuel` is a fuelled longest common subsequence; the fuel is
the combined length of the two lists, which `lcs` supplies, so the
exhaustion branch is unreachable. -/
def lcsFuel [DecidableEq α] : Nat → List α → List α → List α
  | _, [], _ => []
  | _, _, [] => []
  | 0, _, _ => []
  | fuel + 1, a :: as, b :: bs =>
      if a = b then a :: lcsFuel fuel as bs
      else
        let l1 := lcsFuel fuel (a :: as) bs
        let l2 := lcsFuel fuel as (b :: bs)
        if l2.length ≤ l1.length then l1 else l2

/-- Longest common subsequence of two line sequences. -/
def lcs [DecidableEq α] (a b : List α) : List α :=
  lcsFuel (a.length + b.length) a b

/-- Split a list at the first occurrence of `c`: the elements before it and
the elements after it (`(l, [])` when `c` is absent, which cannot happen
when `c` is drawn from a common subsequence of the list). -/
def splitBefore [DecidableEq α] (c : α) : List α → List α × List α
  | [] => ([], [])
  | x :: xs => if x = c then ([], xs) else
      let p := splitBefore c xs
      (x :: p.1, p.2)

/-- Modelled from the spec: the opcode emitted for a non-matching gap of
`na` old lines and `nb` new lines starting at old index `i` and new index
`j` — delete when only old lines remain, insert when only new lines,
replace when both. -/
def gapOps (na nb i j : Nat) : List Opcode :=
  if na = 0 ∧ nb = 0 then []
  else if nb = 0 then [⟨'d', i, i + na, j, j⟩]
  else if na = 0 then [⟨'i', i, i, j, j + nb⟩]
  else [⟨'r', i, i + na, j, j + nb⟩]

/-- Modelled from the spec: turn a common subsequence `cs` of `xs` and `ys`
into the ordered opcode list — for each common element, first the opcode of
the preceding gap, then an equal opcode for the aligned pair, then the
rest; a final gap opcode after the last common element. -/
def emitOpcodes [DecidableEq α] : List α → List α → List α → Nat → Nat → List Opcode
  | xs, ys, [], i, j => gapOps xs.length ys.length i j
  | xs, ys, c :: cs, i, j =>
      let pa := splitBefore c xs
      let pb := splitBefore c ys
      gapOps pa.1.length pb.1.length i j
        ++ [⟨'e', i + pa.1.length, i + pa.1.length + 1, j + pb.1.length, j + pb.1.length + 1⟩]
        ++ emitOpcodes pa.2 pb.2 cs (i + pa.1.length + 1) (j + pb.1.length + 1)

/-- Modelled from the spec: `difflib.NewMatcher(...).GetOpCodes()` — the
ordered opcode list of the LCS-based matcher. -/
def getOpCodes (oldLines newLines : List (List Nat)) : List Opcode :=
  emitOpcodes oldLines newLines (lcs oldLines newLines) 0 0

/-- The body of the opcode switch in `computeStructuredDiff`: the DiffLines
appended for one opcode.  Unknown tags fall through the switch and emit
nothing. -/
def opcodeLines (oldLines newLines : List (List Nat)) (op : Opcode) : List DiffLine :=
  match op.tag with
  | 'e' => (List.range (op.i2 - op.i1)).map fun k =>
      ⟨.unchanged, op.i1 + k + 1, op.j1 + k + 1, oldLines.getD (op.i1 + k) [], []⟩
  | 'd' => (List.range (op.i2 - op.i1)).map fun k =>
      ⟨.deleted, op.i1 + k + 1, 0, oldLines.getD (op.i1 + k) [], []⟩
  | 'i' => (List.range (op.j2 - op.j1)).map fun k =>
      ⟨.added, 0, op.j1 + k + 1, newLines.getD (op.j1 + k) [], []⟩
  | 'r' =>
      ((List.range (op.i2 - op.i1)).map fun k =>
        ⟨.deleted, op.i1 + k + 1, 0, oldLines.getD (op.i1 + k) [], []⟩)
      ++ ((List.range (op.j2 - op.j1)).map fun k =>
        ⟨.added, 0, op.j1 + k + 1, newLines.getD (op.j1 + k) [], []⟩)
  | _ => []

/-- The opcode loop of `computeStructuredDiff`: fold over the opcodes,
appending each opcode's lines. -/
def processOpcodes (oldLines newLines : List (List Nat)) (ops : List Opcode) : List DiffLine :=
  ops.foldl (fun lines op => lines ++ opcodeLines oldLines newLines op) []

/-- `computeStructuredDiff`: run the matcher and translate its opcodes. -/
def computeStructuredDiff (oldLines newLines : List (List Nat)) : List DiffLine :=
  processOpcodes oldLines newLines (getOpCodes oldLines newLines)

/-- Modelled from the spec: `difflib.GetUnifiedDiffString` (external, not in
src/) — a conventional unified diff with 3 context lines, which is the empty
string exactly when the two line sequences are identical (no hunks) and
otherwise begins with a nonempty header.  Only emptiness is relevant here:
the engine uses the text solely through `len(unified) > 0`. -/
def unifiedDiffString (oldLines newLines : List (List Nat)) : String :=
  if oldLines == newLines then "" else "@@"

/-- `Engine.Compute`.  The Go error return is omitted: the only error source
is `difflib.GetUnifiedDiffString` writing to a `strings.Builder`, whose
writes never fail. -/
def compute (oldState newState : FileState) : Result :=
  let base : Result :=
    ⟨newState.path, oldState, newState, "", [], false, false, false, false⟩
  if !newState.exists_ && oldState.exists_ then
    -- file deletion
    if isBinary oldState.content then
      { base with
        hasDiff := true
        isDeleted := true
        isBinary := true
        unified := "Binary file " ++ oldState.path ++ " deleted\n" }
    else
      { base with
        hasDiff := true
        isDeleted := true
        unified := "--- " ++ oldState.path ++ "\n+++ (deleted)\n"
        lines := (splitLines oldState.content).enum.map fun p =>
          ⟨.deleted, p.1 + 1, 0, p.2, []⟩ }
  else if newState.exists_ && !oldState.exists_ then
    -- file creation
    if isBinary newState.content then
      { base with
        hasDiff := true
        isNew := true
        isBinary := true
        unified := "Binary file " ++ newState.path ++ " created\n" }
    else
      { base with
        hasDiff := true
        isNew := true
        unified := "--- (new file)\n+++ " ++ newState.path ++ "\n"
        lines := (splitLines newState.content).enum.map fun p =>
          ⟨.added, 0, p.1 + 1, p.2, []⟩ }
  else if oldState.exists_ && newState.exists_ then
    -- both exist
    if isBinary oldState.content || isBinary newState.content then
      { base with
        isBinary := true
        hasDiff := true
        unified :=
          if isBinary oldState.content && isBinary newState.content then
            "Binary file " ++ newState.path ++ " modified\n"
          else if isBinary newState.content then
            "File " ++ newState.path ++ " changed from text to binary\n"
          else
            "File " ++ newState.path ++ " changed from binary to text\n" }
    else
      let oldLines := splitLines oldState.content
      let newLines := splitLines newState.content
      let unified := unifiedDiffString oldLines newLines
      { base with
        unified := unified
        hasDiff := decide (unified.length > 0)
        lines := computeStructuredDiff oldLines newLines }
  else
    base

/-! ## Diff engine lemmas -/

theorem foldl_append_opcodeLines (oldLines newLines : List (List Nat)) :
    ∀ (ops : List Opcode) (init : List DiffLine),
      ops.foldl (fun lines op => lines ++ opcodeLines oldLines newLines op) init
        = init ++ ops.flatMap (opcodeLines oldLines newLines) := by
  intro ops
  induction ops with
  | nil => intro init; simp
  | cons op rest ih => intro init; simp [ih, List.flatMap_cons]

theorem processOpcodes_eq_flatMap (oldLines newLines : List (List Nat)) (ops : List Opcode) :
    processOpcodes oldLines newLines ops = ops.flatMap (opcodeLines oldLines newLines) := by
  simpa [processOpcodes] using foldl_append_opcodeLines oldLines newLines ops []

theorem opcodeLines_replace (oldLines newLines : List (List Nat)) (i1 i2 j1 j2 : Nat) :
    opcodeLines oldLines newLines ⟨'r', i1, i2, j1, j2⟩
      = ((List.range (i2 - i1)).map fun k =>
          ⟨.deleted, i1 + k + 1, 0, oldLines.getD (i1 + k) [], []⟩)
        ++ ((List.range (j2 - j1)).map fun k =>
          ⟨.added, 0, j1 + k + 1, newLines.getD (j1 + k) [], []⟩) := rfl

theorem opcodeLines_equal (oldLines newLines : List (List Nat)) (i1 i2 j1 j2 : Nat) :
    opcodeLines oldLines newLines ⟨'e', i1, i2, j1, j2⟩
      = (List.range (i2 - i1)).map fun k =>
          ⟨.unchanged, i1 + k + 1, j1 + k + 1, oldLines.getD (i1 + k) [], []⟩ := rfl

theorem lcsFuel_self [DecidableEq α] :
    ∀ (l : List α) (fuel : Nat), l.length ≤ fuel → lcsFuel fuel l l = l := by
  intro l
  induction l with
  | nil => intro fuel _; cases fuel <;> rfl
  | cons a as ih =>
      intro fuel h
      cases fuel with
      | zero => simp at h
      | succ f =>
          have hf : as.length ≤ f := by simpa using h
          simp [lcsFuel, ih f hf]

theorem lcs_self [DecidableEq α] (l : List α) : lcs l l = l :=
  lcsFuel_self l (l.length + l.length) (Nat.le_add_right _ _)

theorem splitBefore_cons_self [DecidableEq α] (c : α) (rest : List α) :
    splitBefore c (c :: rest) = ([], rest) := by
  simp [splitBefore]

theorem gapOps_zero (i j : Nat) : gapOps 0 0 i j = [] := by
  simp [gapOps]

theorem emitOpcodes_self [DecidableEq α] :
    ∀ (l : List α) (i j : Nat),
      emitOpcodes l l l i j
        = (List.range l.length).map fun k =>
            (⟨'e', i + k, i + k + 1, j + k, j + k + 1⟩ : Opcode) := by
  intro l
  induction l with
  | nil => intro i j; rfl
  | cons c rest ih =>
      intro i j
      rw [show emitOpcodes (c :: rest) (c :: rest) (c :: rest) i j
          = gapOps 0 0 i j
            ++ [⟨'e', i + 0, i + 0 + 1, j + 0, j + 0 + 1⟩]
            ++ emitOpcodes rest rest rest (i + 0 + 1) (j + 0 + 1) from by
        simp [emitOpcodes, splitBefore_cons_self]]
      rw [gapOps_zero, ih]
      rw [List.length_cons, List.range_succ_eq_map, List.map_cons, List.map_map]
      simp only [Nat.add_zero, List.nil_append, List.singleton_append, List.cons.injEq]
      refine ⟨trivial, List.map_congr_left fun k _ => ?_⟩
      simp only [Function.comp_apply]
      congr 1 <;> omega

theorem flatMap_singleton_map (l : List Nat) (g : Nat → DiffLine) :
    (l.flatMap fun k => [g k]) = l.map g := by
  induction l with
  | nil => rfl
  | cons a t ih => simp [List.flatMap_cons, ih]

theorem computeStructuredDiff_self (L : List (List Nat)) :
    computeStructuredDiff L L
      = (List.range L.length).map fun k =>
          ⟨.unchanged, k + 1, k + 1, L.getD k [], []⟩ := by
  unfold computeStructuredDiff getOpCodes
  rw [lcs_self, emitOpcodes_self, processOpcodes_eq_flatMap]
  have h1 : ∀ k : Nat,
      opcodeLines L L ⟨'e', 0 + k, 0 + k + 1, 0 + k, 0 + k + 1⟩
        = [⟨.unchanged, k + 1, k + 1, L.getD k [], []⟩] := by
    intro k
    rw [opcodeLines_equal]
    simp [Nat.add_sub_cancel_left, List.range_succ]
  rw [List.flatMap_map]
  simp only [h1]
  exact flatMap_singleton_map _ _

theorem enum_map_eq_range_map {α β : Type} (l : List α) (d : α) (g : Nat → α → β) :
    l.enum.map (fun p => g p.1 p.2)
      = (List.range l.length).map fun k => g k (l.getD k d) := by
  apply List.ext_getElem
  · simp
  · intro i h1 h2
    have hi : i < l.length := by simpa using h1
    have he : i < l.enum.length := by simpa using hi
    simp only [List.getElem_map, List.getElem_range, List.getElem_enum,
      List.getD_eq_getElem l d hi]

/-- C3: for an existing, non-binary old snapshot and a new snapshot with
`exists=false`, `Compute` reports a deletion with a diff, and its lines are
exactly one `Deleted` line per old content line, numbered 1..N in order and
carrying the corresponding old line. -/
theorem compute_deletion_all_deleted (oldS newS : FileState)
    (hOld : oldS.exists_ = true) (hNew : newS.exists_ = false)
    (hBin : isBinary oldS.content = false) :
    (compute oldS newS).isDeleted = true ∧
    (compute oldS newS).hasDiff = true ∧
    (compute oldS newS).lines.length = (splitLines oldS.content).length ∧
    (compute oldS newS).lines
      = (List.range (splitLines oldS.content).length).map fun k =>
          ⟨.deleted, k + 1, 0, (splitLines oldS.content).getD k [], []⟩ := by
  have hlines : (compute oldS newS).lines
      = (splitLines oldS.content).enum.map fun p =>
          (⟨.deleted, p.1 + 1, 0, p.2, []⟩ : DiffLine) := by
    simp [compute, hOld, hNew, hBin]
  refine ⟨by simp [compute, hOld, hNew, hBin], by simp [compute, hOld, hNew, hBin], ?_, ?_⟩
  · rw [hlines]; simp
  · rw [hlines]
    exact enum_map_eq_range_map (splitLines oldS.content) []
      (fun k line => (⟨.deleted, k + 1, 0, line, []⟩ : DiffLine))

/-- C3 witness: `Compute` on the concrete snapshots `old = ("f", "a\nb",
exists)` and `new = ("f", deleted)`. -/
theorem compute_deletion_all_deleted_witness :
    (⟨"f", [97, 10, 98], true⟩ : FileState).exists_ = true ∧
    (⟨"f", [], false⟩ : FileState).exists_ = false ∧
    isBinary [97, 10, 98] = false ∧
    ((compute ⟨"f", [97, 10, 98], true⟩ ⟨"f", [], false⟩).isDeleted = true ∧
     (compute ⟨"f", [97, 10, 98], true⟩ ⟨"f", [], false⟩).hasDiff = true ∧
     (compute ⟨"f", [97, 10, 98], true⟩ ⟨"f", [], false⟩).lines.length
       = (splitLines [97, 10, 98]).length ∧
     (compute ⟨"f", [97, 10, 98], true⟩ ⟨"f", [], false⟩).lines
       = (List.range (splitLines [97, 10, 98]).length).map fun k =>
           ⟨.deleted, k + 1, 0, (splitLines [97, 10, 98]).getD k [], []⟩) :=
  ⟨rfl, rfl, by decide,
    compute_deletion_all_deleted ⟨"f", [97, 10, 98], true⟩ ⟨"f", [], false⟩ rfl rfl (by decide)⟩

/-- C4: on `old = ["a","b","c"]`, `new = ["a","x","c"]` (bytes 97/98/99/120),
`Compute` returns Unchanged("a",1,1), Deleted("b",2), Added("x",2),
Unchanged("c",3,3); and in general the opcode loop translates a replace
opcode into the whole old span as Deleted lines followed by the whole new
span as Added lines, with no per-line pairing. -/
theorem compute_replace_block_policy :
    (compute ⟨"f", [97, 10, 98, 10, 99], true⟩ ⟨"f", [97, 10, 120, 10, 99], true⟩).lines
      = [⟨.unchanged, 1, 1, [97], []⟩, ⟨.deleted, 2, 0, [98], []⟩,
         ⟨.added, 0, 2, [120], []⟩, ⟨.unchanged, 3, 3, [99], []⟩] ∧
    ∀ (oldLines newLines : List (List Nat)) (ops1 ops2 : List Opcode) (i1 i2 j1 j2 : Nat),
      processOpcodes oldLines newLines (ops1 ++ ⟨'r', i1, i2, j1, j2⟩ :: ops2)
        = processOpcodes oldLines newLines ops1
          ++ ((List.range (i2 - i1)).map fun k =>
              ⟨.deleted, i1 + k + 1, 0, oldLines.getD (i1 + k) [], []⟩)
          ++ ((List.range (j2 - j1)).map fun k =>
              ⟨.added, 0, j1 + k + 1, newLines.getD (j1 + k) [], []⟩)
          ++ processOpcodes oldLines newLines ops2 := by
  constructor
  · decide
  · intro oldLines newLines ops1 ops2 i1 i2 j1 j2
    simp only [processOpcodes_eq_flatMap, List.flatMap_append, List.flatMap_cons,
      opcodeLines_replace, List.append_assoc]

/-- C5: `Compute(s, s)` on an existing non-binary snapshot has no diff and
yields one `Unchanged` line per content line, numbered identically on both
sides. -/
theorem compute_self_no_diff (s : FileState)
    (hEx : s.exists_ = true) (hBin : isBinary s.content = false) :
    (compute s s).hasDiff = false ∧
    (compute s s).lines
      = (List.range (splitLines s.content).length).map fun k =>
          ⟨.unchanged, k + 1, k + 1, (splitLines s.content).getD k [], []⟩ := by
  constructor
  · simp [compute, hEx, hBin, unifiedDiffString]
  · have h : (compute s s).lines = computeStructuredDiff (splitLines s.content) (splitLines s.content) := by
      simp [compute, hEx, hBin]
    rw [h, computeStructuredDiff_self]

/-- C5 witness: `Compute(s, s)` at the concrete snapshot `("f", "a\nb")`. -/
theorem compute_self_no_diff_witness :
    (⟨"f", [97, 10, 98], true⟩ : FileState).exists_ = true ∧
    isBinary [97, 10, 98] = false ∧
    ((compute ⟨"f", [97, 10, 98], true⟩ ⟨"f", [97, 10, 98], true⟩).hasDiff = false ∧
     (compute ⟨"f", [97, 10, 98], true⟩ ⟨"f", [97, 10, 98], true⟩).lines
       = (List.range (splitLines [97, 10, 98]).length).map fun k =>
           ⟨.unchanged, k + 1, k + 1, (splitLines [97, 10, 98]).getD k [], []⟩) :=
  ⟨rfl, by decide, compute_self_no_diff ⟨"f", [97, 10, 98], true⟩ rfl (by decide)⟩

/-- C6: every `Compute` result is binary only with an empty line sequence,
never reports both creation and deletion, and reports neither when both
snapshots exist. -/
theorem compute_result_invariants (o n : FileState) :
    ((compute o n).isBinary = true → (compute o n).lines = []) ∧
    (¬((compute o n).isNew = true ∧ (compute o n).isDeleted = true)) ∧
    (o.exists_ = true → n.exists_ = true →
      (compute o n).isNew = false ∧ (compute o n).isDeleted = false) := by
  cases ho : o.exists_ <;> cases hn : n.exists_ <;>
    simp [compute, ho, hn] <;> split_ifs <;> simp_all

/-- C6 witness: the invariant instantiated at two existing text snapshots. -/
theorem compute_result_invariants_witness :
    (⟨"f", [97], true⟩ : FileState).exists_ = true ∧
    (⟨"f", [98], true⟩ : FileState).exists_ = true ∧
    ((compute ⟨"f", [97], true⟩ ⟨"f", [98], true⟩).isNew = false ∧
     (compute ⟨"f", [97], true⟩ ⟨"f", [98], true⟩).isDeleted = false) :=
  ⟨rfl, rfl, (compute_result_invariants ⟨"f", [97], true⟩ ⟨"f", [98], true⟩).2.2 rfl rfl⟩

/-! ## Snapshot store (internal/state, `Manager`) -/

/-- The outcome of `os.ReadFile(path)` as seen by `Update`: the content on
success, a not-exist error, or any other error (permission, I/O). -/
inductive ReadResult where
  | ok (content : List Nat)
  | notExist
  | failOther
deriving DecidableEq

/-- What one call to `Manager.Update` returns and leaves behind: the updated
`states` map, the two snapshots, and whether an error was returned. -/
structure UpdateResult where
  states : String → Option FileState
  old : FileState
  new : FileState
  err : Bool

/-- `Manager.Get`: the stored snapshot and the `ok` flag of the map lookup. -/
def get (states : String → Option FileState) (path : String) :
    Option FileState × Bool :=
  (states path, (states path).isSome)

/-- `Manager.Update`, with the `os.ReadFile` outcome passed in explicitly.
The old state is the stored entry, synthesized as `{exists: false}` when
absent; the new state starts as `{exists: true}`; a not-exist read error
flips it to `exists: false` with no error; any other read error returns the
error before the map is written; otherwise the content is recorded and the
new state replaces the stored entry. -/
def update (states : String → Option FileState) (path : String)
    (read : ReadResult) : UpdateResult :=
  let oldState : FileState :=
    match states path with
    | some s => s
    | none => ⟨path, [], false⟩
  match read with
  | .ok content =>
      let newState : FileState := ⟨path, content, true⟩
      ⟨fun q => if q = path then some newState else states q, oldState, newState, false⟩
  | .notExist =>
      let newState : FileState := ⟨path, [], false⟩
      ⟨fun q => if q = path then some newState else states q, oldState, newState, false⟩
  | .failOther =>
      ⟨states, oldState, ⟨path, [], true⟩, true⟩

/-- C7: for a path with no stored entry, `Update` returns an old snapshot
with `exists=false`; and when the read fails with not-exist, `Update`
returns a new snapshot with `exists=false`, no error, and stores that
snapshot as the path's entry. -/
theorem update_fresh_and_notExist (states : String → Option FileState)
    (path : String) (read : ReadResult) :
    (states path = none → (update states path read).old.exists_ = false) ∧
    (read = .notExist →
      (update states path read).new.exists_ = false ∧
      (update states path read).err = false ∧
      (update states path read).states path = some (update states path read).new) := by
  constructor
  · intro h
    cases read <;> simp [update, h]
  · intro h
    subst h
    cases hs : states path <;> simp [update, hs]

/-- C7 witness: `Update` on an empty store at path `"p"` with a not-exist
read. -/
theorem update_fresh_and_notExist_witness :
    ((fun _ => none : String → Option FileState) "p" = none ∧
      (update (fun _ => none) "p" .notExist).old.exists_ = false) ∧
    ((ReadResult.notExist = ReadResult.notExist) ∧
      (update (fun _ => none) "p" .notExist).new.exists_ = false ∧
      (update (fun _ => none) "p" .notExist).err = false ∧
      (update (fun _ => none) "p" .notExist).states "p"
        = some (update (fun _ => none) "p" .notExist).new) :=
  ⟨⟨rfl, (update_fresh_and_notExist (fun _ => none) "p" .notExist).1 rfl⟩,
    ⟨rfl, (update_fresh_and_notExist (fun _ => none) "p" .notExist).2 rfl⟩⟩

/-- C8: when the read fails with any error other than not-exist, `Update`
returns the error and leaves the stored map untouched — a subsequent `Get`
at any path, in particular the updated one, sees exactly the entry (or
absence) from before the call. -/
theorem update_read_error_atomic (states : String → Option FileState) (path : String) :
    (update states path .failOther).err = true ∧
    (∀ q : String, (update states path .failOther).states q = states q) ∧
    get (update states path .failOther).states path = get states path := by
  refine ⟨rfl, fun q => rfl, rfl⟩

/-! ## Debouncer (internal/watcher, `Debouncer`)

Real time is abstracted into a discrete event trace: an `add` event is a
call to `Debouncer.Add`, and a `fire key` event is key `key`'s currently
pending timer reaching its 100 ms delay.  A timer cancelled by
`timer.Stop()` inside `Add` is removed from the map and never fires, so "a
call arriving before the previous timer's delay elapses" is a trace with no
`fire` for that key between the `Add`s. -/

/-- Debouncer state: the pending-callback map (callbacks abstracted to ids)
and whether `stopChan` has been closed. -/
structure Debouncer where
  timers : String → Option Nat
  stopClosed : Bool

/-- `NewDebouncer`: empty timer map, open stop channel. -/
def newDebouncer : Debouncer :=
  ⟨fun _ => none, false⟩

/-- `Debouncer.Add`: stop (cancel) any existing timer for the key and store
the newly scheduled callback. -/
def debAdd (d : Debouncer) (key : String) (cb : Nat) : Debouncer :=
  { d with timers := fun q => if q = key then some cb else d.timers q }

/-- A pending timer for `key` fires: the Go timer function deletes the map
entry and then invokes the callback; a key with no pending timer fires
nothing. -/
def debFire (d : Debouncer) (key : String) : Debouncer × List Nat :=
  match d.timers key with
  | some cb => ({ d with timers := fun q => if q = key then none else d.timers q }, [cb])
  | none => (d, [])

/-- One trace event: an `Add` call or a timer expiry. -/
inductive DebEvent where
  | add (key : String) (cb : Nat)
  | fire (key : String)

/-- One step of the debouncer trace semantics, returning the callbacks
invoked by the step. -/
def debStep (d : Debouncer) (e : DebEvent) : Debouncer × List Nat :=
  match e with
  | .add key cb => (debAdd d key cb, [])
  | .fire key => debFire d key

/-- Run a trace, collecting every invoked callback in order. -/
def debRun (d : Debouncer) : List DebEvent → Debouncer × List Nat
  | [] => (d, [])
  | e :: es =>
      let s1 := debStep d e
      let s2 := debRun s1.1 es
      (s2.1, s1.2 ++ s2.2)

theorem debRun_append (d : Debouncer) (l1 l2 : List DebEvent) :
    debRun d (l1 ++ l2)
      = ((debRun (debRun d l1).1 l2).1,
         (debRun d l1).2 ++ (debRun (debRun d l1).1 l2).2) := by
  induction l1 generalizing d with
  | nil => simp [debRun]
  | cons e es ih => simp [debRun, ih, List.append_assoc]

theorem debRun_adds_silent (key : String) :
    ∀ (cbs : List Nat) (d : Debouncer),
      (debRun d (cbs.map fun cb => DebEvent.add key cb)).2 = [] := by
  intro cbs
  induction cbs with
  | nil => intro d; rfl
  | cons c rest ih => intro d; simp [debRun, debStep, ih]

theorem debRun_adds_last (key : String) :
    ∀ (cbs : List Nat) (d : Debouncer) (c : Nat), cbs.getLast? = some c →
      (debRun d (cbs.map fun cb => DebEvent.add key cb)).1.timers key = some c := by
  intro cbs
  induction cbs with
  | nil => intro d c h; simp at h
  | cons c0 rest ih =>
      intro d c h
      rcases rest with _ | ⟨c1, rest'⟩
      · simp at h
        subst h
        simp [debRun, debStep, debAdd]
      · have h' : (c1 :: rest').getLast? = some c := by
          simpa [List.getLast?_cons_cons] using h
        simpa [debRun, debStep] using ih (debAdd d key c0) c h'

/-- C9: from any debouncer state, a trace of `Add(key, cb_1) ... Add(key,
cb_M)` with no intervening expiry for `key`, followed by the pending timer's
expiry, invokes exactly one callback, namely `cb_M`; and after each `Add`
the pending callback for `key` is the one that `Add` supplied, every earlier
one having been cancelled. -/
theorem debouncer_coalesces (d : Debouncer) (key : String) (cbs : List Nat)
    (c : Nat) (h : cbs.getLast? = some c) :
    (debRun d ((cbs.map fun cb => DebEvent.add key cb) ++ [DebEvent.fire key])).2 = [c] ∧
    ∀ (pre : List Nat) (mid : Nat) (post : List Nat), cbs = pre ++ mid :: post →
      (debRun d ((pre ++ [mid]).map fun cb => DebEvent.add key cb)).1.timers key
        = some mid := by
  constructor
  · rw [debRun_append, debRun_adds_silent key cbs d]
    have hl : (debRun d (cbs.map fun cb => DebEvent.add key cb)).1.timers key = some c :=
      debRun_adds_last key cbs d c h
    simp [debRun, debStep, debFire, hl]
  · intro pre mid post hsplit
    exact debRun_adds_last key (pre ++ [mid]) d mid (by simp)

/-- C9 witness: three rapid `Add`s for one key followed by the expiry invoke
only the last callback. -/
theorem debouncer_coalesces_witness :
    ([1, 2, 3] : List Nat).getLast? = some 3 ∧
    (debRun newDebouncer
      ((([1, 2, 3] : List Nat).map fun cb => DebEvent.add "k" cb)
        ++ [DebEvent.fire "k"])).2 = [3] :=
  ⟨rfl, (debouncer_coalesces newDebouncer "k" [1, 2, 3] 3 rfl).1⟩

/-- The state after a successful `Stop`: all timers stopped, the timer map
replaced by a fresh empty one, `stopChan` closed. -/
def stoppedDebouncer : Debouncer :=
  ⟨fun _ => none, true⟩

/-- `Debouncer.Stop`: `close(d.stopChan)` panics when the channel is already
closed (Go language semantics); `none` models that panic.  Otherwise every
timer is stopped and the map is cleared. -/
def debStop (d : Debouncer) : Option Debouncer :=
  if d.stopClosed then none
  else some stoppedDebouncer

/-- C10: `Stop` is not idempotent — on a debouncer whose stop channel is
still open it succeeds, cancelling all pending timers and clearing the
map, but calling `Stop` again on the resulting state panics, so `Stop`
must be invoked at most once. -/
theorem debStop_not_idempotent (d : Debouncer) (h : d.stopClosed = false) :
    debStop d = some stoppedDebouncer ∧
    debStop stoppedDebouncer = none ∧
    ∀ k : String, stoppedDebouncer.timers k = none := by
  refine ⟨by simp [debStop, h], rfl, fun k => rfl⟩

/-- C10 witness: stopping a fresh debouncer once succeeds; stopping the
stopped state panics. -/
theorem debStop_not_idempotent_witness :
    newDebouncer.stopClosed = false ∧
    debStop newDebouncer = some stoppedDebouncer ∧
    debStop stoppedDebouncer = none :=
  ⟨rfl, (debStop_not_idempotent newDebouncer rfl).1,
    (debStop_not_idempotent newDebouncer rfl).2.1⟩

/-! ## Recursive directory watcher (internal/watcher, `New`/`addRecursive`)

The filesystem is a finite tree; `readDenied` models `filepath.Walk`
reporting a permission error for the directory, `addDenied` models
`fsnotify.Watcher.Add` failing with a permission error.  The walk follows
Go's `filepath.Walk`: the callback runs on the directory first (receiving
any read error), `SkipDir` prunes that directory's children, and a
`SkipDir` from the root makes `Walk` return nil immediately. -/

mutual
inductive FsTree where
  | file (name : String)
  | dir (name : String) (readDenied : Bool) (addDenied : Bool) (children : FsForest)
inductive FsForest where
  | nil
  | cons (t : FsTree) (ts : FsForest)
end

def fsName : FsTree → String
  | .file n => n
  | .dir n _ _ _ => n

def fsIsDir : FsTree → Bool
  | .file _ => false
  | .dir _ _ _ _ => true

/-- The fixed exclusion list `skipDirs` of the watcher package. -/
def skipDirs : List String :=
  [".git", "node_modules", ".cache", ".npm", ".cargo", ".rustup", "__pycache__",
   ".pytest_cache", ".venv", "venv", ".tox", "dist", "build", "target", ".next",
   ".nuxt", "vendor", ".gradle", ".m2", ".idea", ".vscode"]

/-- Errors flowing through the walk: `filepath.SkipDir`, a permission
error, or any other error. -/
inductive WalkErr where
  | skipDir
  | permission
  | other
deriving DecidableEq

/-- The walk callback of `addRecursive`: on a permission error skip the
subtree; on a directory, skip it if already watched or if its base name is
excluded; subscribe it (skipping on a permission-denied `Add`) and record
it in the watched set; do nothing for plain files.  `base` is
`filepath.Base(path)`. -/
def walkFn (watched : List String) (path base : String) (isDir addDenied : Bool)
    (err : Option WalkErr) : List String × Option WalkErr :=
  match err with
  | some e => if e = .permission then (watched, some .skipDir) else (watched, some e)
  | none =>
      if isDir then
        if watched.contains path then (watched, some .skipDir)
        else if skipDirs.contains base then (watched, some .skipDir)
        else if addDenied then (watched, some .skipDir)
        else (path :: watched, none)
      else (watched, none)

mutual
/-- `filepath.Walk`'s recursive worker on one tree node: run the callback
(with the directory-read error, if any), stop on its error, else walk the
children. -/
def walkNode (watched : List String) (path : String) (t : FsTree) :
    List String × Option WalkErr :=
  match t with
  | .file name => walkFn watched path name false false none
  | .dir name readDenied addDenied children =>
      let readErr : Option WalkErr := if readDenied then some .permission else none
      let r1 := walkFn watched path name true addDenied readErr
      match readErr, r1.2 with
      | some _, _ => r1
      | none, some e => (r1.1, some e)
      | none, none => walkForest r1.1 path children
/-- Walk a directory's children in order; a `SkipDir` from a child
directory prunes only that child, any other child error aborts the walk. -/
def walkForest (watched : List String) (dirPath : String) :
    FsForest → List String × Option WalkErr
  | .nil => (watched, none)
  | .cons c cs =>
      let r := walkNode watched (dirPath ++ "/" ++ fsName c) c
      match r.2 with
      | none => walkForest r.1 dirPath cs
      | some e =>
          if fsIsDir c ∧ e = .skipDir then walkForest r.1 dirPath cs
          else (r.1, some e)
end

/-- `filepath.Walk`: a `SkipDir` escaping from the root is swallowed. -/
def filepathWalk (watched : List String) (rootPath : String) (t : FsTree) :
    List String × Option WalkErr :=
  let r := walkNode watched rootPath t
  if r.2 = some .skipDir then (r.1, none) else r

/-- `FileWatcher.addRecursive(root)`. -/
def addRecursive (watched : List String) (rootPath : String) (t : FsTree) :
    List String × Option WalkErr :=
  filepathWalk watched rootPath t

/-- `New(path, recursive=true)` followed by the completion of the
background `addRecursive(absPath)` walk: the root is subscribed and stored
in the watched-directory set first, then the walk runs over the subtree.
The result is the final watched-directory set. -/
def newRecursiveWatched (absPath : String) (t : FsTree) : List String :=
  (addRecursive [absPath] absPath t).1

/-- C2, evaluated at the failing input: a root `/r` containing one
accessible, non-excluded subdirectory `/r/src`.  Because `New` stores the
root in the watched set before the background walk starts, the walk's first
callback — on the root itself — hits the already-watched check and returns
`filepath.SkipDir`, which aborts the entire subtree walk: the final watched
set is just `["/r"]` and `/r/src` is never subscribed, although the same
walk run on `/r/src` alone (the dynamic directory-creation path, where the
root is not pre-watched) does subscribe it. -/
theorem newRecursive_never_watches_subdirs :
    newRecursiveWatched "/r"
      (.dir "r" false false (.cons (.dir "src" false false .nil) .nil)) = ["/r"] ∧
    "/r/src" ∉ newRecursiveWatched "/r"
      (.dir "r" false false (.cons (.dir "src" false false .nil) .nil)) ∧
    (addRecursive [] "/r/src" (.dir "src" false false .nil)).1 = ["/r/src"] := by
  refine ⟨by decide, by decide, by decide⟩

end Diffwatch
